import Mathlib

/-!
Shallow embedding of `src/retweetNetworkForTVshow.py`, a single-pass ETL
script that builds a directed retweet/mention/quote/reply network for a
topic (hashtag) from a store of tweet records.

Modelling choices, all traceable to the source:

* The networkx `DiGraph` named `network` is modelled as a `Graph` record
  holding an association list of nodes (user id paired with the optional
  `adoption_time` attribute) and an association list of edges (ordered pair
  of user ids paired with the edge attributes `type` and `creation_time`).
  networkx keys nodes and edges by dictionaries, so key uniqueness is
  structural there; here it is the invariant `Inv` proved below.
* The edge attribute `type` is a Python string over the characters
  `R`, `M`, `Q`, `C`, grown by string concatenation
  (`network[start][end]["type"] + edge_type`).  It is modelled as a
  `List EdgeType`: appending a one-character string is `++ [k]`, and the
  Python substring test `edge_type in ...` on a one-character needle is
  exactly list membership.
* Python `assert` failures are modelled as `Except.error`:
  `PrecursorMissing` for the endpoint assertion in `add_relation`,
  `InvalidArgument` for the empty-hashtag assertion in `query_tweets`.
  The assertion `edge_type in ["R", "M", "Q", "C"]` is captured by the
  inductive type `EdgeType` having exactly those four constructors.
* A tweet record is modelled with the fields the script reads:
  `user.id`, `created_at` (already parsed by `datetime.strptime(...)
  .timestamp()` into epoch seconds, hence an `Int` here),
  `entities.hashtags.text` (the Mongo query filter), the optional
  `retweeted_status` / `quoted_status` sub-records, the optional
  `entities.user_mentions` list, and the nullable `in_reply_to_user_id`
  (field absent and field `None` are collapsed into `Option.none`, matching
  the combined test on line 143).
* A mention entry carries its optional numeric id (`none` models an id on
  which `int(mentioned_user["id"])` raises, which the script logs and
  skips) plus the rest of the entity payload, abstracted as a string, so
  that the script's structural comparison
  `mentioned_user in original_retweet_mentions` is finer than id equality.
* `logging.error("Abnormal mention id ...")` is modelled by counting
  anomalies: processing returns the graph together with the number of
  malformed mention entries encountered.  The two `social_network`
  look-ups after `add_relation` (lines 139-140) bind local variables that
  are never used and touch no state of interest, so they have no
  counterpart here.
-/

namespace RetweetNetwork

/-- The four recognized edge kinds `"R"`, `"M"`, `"Q"`, `"C"` of
`add_relation` (Retweet, Mention, Quote, reply/Comment). -/
inductive EdgeType where
  | R
  | M
  | Q
  | C
deriving DecidableEq, Repr

/-- Failure modes: the endpoint assertion of `add_relation` and the
empty-hashtag assertion of `query_tweets`. -/
inductive Err where
  | PrecursorMissing
  | InvalidArgument
deriving DecidableEq, Repr

/-- Attributes stored on one directed edge: the `type` string (modelled as
an insertion-ordered list of kinds) and `creation_time`. -/
structure EdgeData where
  type_ : List EdgeType
  creation_time : Int
deriving DecidableEq, Repr

/-- The networkx `DiGraph` `network`: nodes keyed by user id with optional
`adoption_time`, edges keyed by ordered pairs of user ids. -/
structure Graph where
  nodes : List (Int × Option Int)
  edges : List ((Int × Int) × EdgeData)
deriving DecidableEq, Repr

/-- The initial empty `nx.DiGraph()`. -/
def Graph.empty : Graph := ⟨[], []⟩

/-- `user_id in network`. -/
def hasNode (g : Graph) (u : Int) : Bool :=
  g.nodes.any (fun p => p.1 == u)

/-- Read `network.node[u][ADOPTION_TIMESTAMP]`; `none` when the node is
absent or has no `adoption_time` attribute. -/
def getAdoption (g : Graph) (u : Int) : Option Int :=
  (g.nodes.find? (fun p => p.1 == u)).bind (fun p => p.2)

/-- Write `network.node[u][ADOPTION_TIMESTAMP] = t`. -/
def setAdoption (g : Graph) (u : Int) (t : Int) : Graph :=
  { g with nodes := g.nodes.map (fun p => if p.1 == u then (p.1, some t) else p) }

/-- `if user_id not in network: network.add_node(user_id)`. -/
def ensure_node (g : Graph) (u : Int) : Graph :=
  if hasNode g u then g else { g with nodes := g.nodes ++ [(u, none)] }

/-- `add_user` (source lines 29-40): ensure the node exists; when a
timestamp is supplied, keep only the earliest `adoption_time`. -/
def add_user (g : Graph) (user_id : Int) (timestamp : Option Int) : Graph :=
  let g1 := ensure_node g user_id
  match timestamp with
  | none => g1
  | some t =>
    match getAdoption g1 user_id with
    | none => setAdoption g1 user_id t
    | some a => if t < a then setAdoption g1 user_id t else g1

/-- Read the attribute dictionary `network[a][b]` of the edge `a → b`. -/
def getEdge (g : Graph) (a b : Int) : Option EdgeData :=
  (g.edges.find? (fun p => p.1 == (a, b))).map (fun p => p.2)

/-- Overwrite the attributes of the edge `a → b`. -/
def setEdge (g : Graph) (a b : Int) (d : EdgeData) : Graph :=
  { g with edges := g.edges.map (fun p => if p.1 == (a, b) then (p.1, d) else p) }

/-- The existing-edge branch of `add_relation` (source lines 47-55): first
lower `creation_time` if the new timestamp is earlier, then append the kind
to the `type` string unless it is already present. -/
def merge_edge (ed : EdgeData) (edge_type : EdgeType) (timestamp : Int) : EdgeData :=
  let ed1 := if timestamp < ed.creation_time then { ed with creation_time := timestamp } else ed
  if edge_type ∈ ed1.type_ then ed1 else { ed1 with type_ := ed1.type_ ++ [edge_type] }

/-- `add_relation` (source lines 43-57): both endpoints must already be
nodes (`assert start in network and end in network`), then either merge
into the existing edge or create a fresh one with
`type = edge_type, creation_time = timestamp`. -/
def add_relation (g : Graph) (start end_ : Int) (edge_type : EdgeType) (timestamp : Int) :
    Except Err Graph :=
  if hasNode g start && hasNode g end_ then
    match getEdge g start end_ with
    | some ed => .ok (setEdge g start end_ (merge_edge ed edge_type timestamp))
    | none => .ok { g with edges := g.edges ++ [((start, end_), ⟨[edge_type], timestamp⟩)] }
  else
    .error .PrecursorMissing

/-- One entry of an `entities.user_mentions` list.  `id` is `none` when
`int(mentioned_user["id"])` would raise; `payload` abstracts the remaining
fields of the entity so that structural equality of entries is finer than
id equality. -/
structure MentionEntry where
  id : Option Int
  payload : String
deriving DecidableEq, Repr

/-- The part of an embedded `retweeted_status` / `quoted_status` sub-record
that the script reads: `user.id` and `entities.user_mentions`. -/
structure EmbeddedTweet where
  user_id : Int
  user_mentions : List MentionEntry
deriving DecidableEq, Repr

/-- The part of a stored tweet record that the script reads.  `created_at`
is the epoch-seconds result of the `strptime` parse. -/
structure Tweet where
  user_id : Int
  created_at : Int
  hashtags : List String
  retweeted_status : Option EmbeddedTweet
  quoted_status : Option EmbeddedTweet
  user_mentions : Option (List MentionEntry)
  in_reply_to_user_id : Option Int
deriving DecidableEq, Repr

/-- The body of the mention loop (source lines 126-140) for one entry:
parse the id (on failure log one anomaly and continue), skip entries that
occur verbatim in the embedded retweet's or quote's mention list, otherwise
add the mentioned user and a Mention edge.  Returns the graph and the
number of anomalies logged (0 or 1). -/
def process_mention (g : Graph) (user_id create_at : Int)
    (original_retweet_mentions original_quote_mentions : List MentionEntry)
    (m : MentionEntry) : Except Err (Graph × Nat) :=
  match m.id with
  | none => .ok (g, 1)
  | some mentioned_user_id =>
    if m ∈ original_retweet_mentions ∨ m ∈ original_quote_mentions then
      .ok (g, 0)
    else do
      let g1 := add_user g mentioned_user_id none
      let g2 ← add_relation g1 user_id mentioned_user_id .M create_at
      pure (g2, 0)

/-- The mention loop over a whole `user_mentions` list, accumulating the
anomaly count. -/
def process_mentions (g : Graph) (user_id create_at : Int)
    (original_retweet_mentions original_quote_mentions : List MentionEntry)
    (ms : List MentionEntry) : Except Err (Graph × Nat) :=
  ms.foldlM
    (fun p m => do
      let (g', n) ← process_mention p.1 user_id create_at
        original_retweet_mentions original_quote_mentions m
      pure (g', p.2 + n))
    (g, 0)

/-- The loop body of `query_tweets` for one matching tweet record (source
lines 92-146): author, retweet branch, quote branch, mention branch, reply
branch.  Returns the updated graph and the anomaly count of the record. -/
def process_record (g0 : Graph) (tweet : Tweet) : Except Err (Graph × Nat) := do
  let user_id := tweet.user_id
  let create_at := tweet.created_at
  let ga := add_user g0 user_id (some create_at)
  let (gr, original_retweet_mentions) ←
    match tweet.retweeted_status with
    | some rt => do
      let g1 := add_user ga rt.user_id none
      let g2 ← add_relation g1 user_id rt.user_id .R create_at
      pure (g2, rt.user_mentions)
    | none => pure (ga, ([] : List MentionEntry))
  let (gq, original_quote_mentions) ←
    match tweet.quoted_status with
    | some qt => do
      let g1 := add_user gr qt.user_id none
      let g2 ← add_relation g1 user_id qt.user_id .Q create_at
      pure (g2, qt.user_mentions)
    | none => pure (gr, ([] : List MentionEntry))
  let (gm, anomalies) ←
    match tweet.user_mentions with
    | some ms =>
      process_mentions gq user_id create_at
        original_retweet_mentions original_quote_mentions ms
    | none => pure (gq, 0)
  match tweet.in_reply_to_user_id with
  | some reply_user_id => do
    let g1 := add_user gm reply_user_id none
    let g2 ← add_relation g1 user_id reply_user_id .C create_at
    pure (g2, anomalies)
  | none => pure (gm, anomalies)

/-- The scan over all matching records, accumulating the anomaly count. -/
def process_store (g : Graph) (tweets : List Tweet) : Except Err (Graph × Nat) :=
  tweets.foldlM
    (fun p tweet => do
      let (g', n) ← process_record p.1 tweet
      pure (g', p.2 + n))
    (g, 0)

/-- `query_tweets` (source lines 60-148): reject an empty hashtag
(`assert hashtag != ''`) before touching the store, then process every
record whose hashtag list contains the hashtag (the Mongo query
`{"entities.hashtags.text": hashtag}` is an exact containment filter). -/
def query_tweets (g : Graph) (store : List Tweet) (hashtag : String) :
    Except Err (Graph × Nat) :=
  if hashtag = "" then .error .InvalidArgument
  else process_store g (store.filter (fun tweet => tweet.hashtags.contains hashtag))

/-! ### Concrete inputs and state predicates used by the claims -/

/-- Two-record input of the end-to-end scenario: user 100 posts at t=1000
with no interactions; user 200 posts at t=2000 retweeting user 100. -/
def tweet1 : Tweet := ⟨100, 1000, ["X"], none, none, none, none⟩

def tweet2 : Tweet := ⟨200, 2000, ["X"], some ⟨100, []⟩, none, none, none⟩

def shared_mention : MentionEntry := ⟨some 2, "shared"⟩

def two_node_graph : Graph := ⟨[(1, none), (2, none)], []⟩

/-- Record with one malformed and one valid top-level mention entry. -/
def malformed_mention : MentionEntry := ⟨none, "malformed"⟩

def valid_mention : MentionEntry := ⟨some 300, "valid"⟩

def mention_tweet : Tweet :=
  ⟨10, 5, ["show"], none, none, some [malformed_mention, valid_mention], none⟩

def later_tweet : Tweet := ⟨400, 9, ["show"], none, none, none, none⟩

def q_edge_graph : Graph := ⟨[(1, none), (2, none)], [((1, 2), ⟨[.Q], 0⟩)]⟩

/-- The state predicate of C5: the edge keys are pairwise distinct (at
most one edge per ordered pair of nodes) and no edge has an empty type
set. -/
def Inv (g : Graph) : Prop :=
  (g.edges.map (fun p => p.1)).Nodup ∧ ∀ p ∈ g.edges, p.2.type_ ≠ []

/-- One GraphBuilder call: an `add_user` call or a successful
`add_relation` call. -/
def Step (g g' : Graph) : Prop :=
  (∃ u t, g' = add_user g u t) ∨ (∃ a b k t, add_relation g a b k t = .ok g')

/-! ### Association-list lemmas -/

/-- Updating the value at key `k` commutes with `find?` on any key. -/
theorem find?_key_map {κ ν : Type} [BEq κ] (l : List (κ × ν)) (k k' : κ) (d : ν) :
    (l.map (fun p => if p.1 == k then (p.1, d) else p)).find? (fun p => p.1 == k')
      = (l.find? (fun p => p.1 == k')).map (fun p => if p.1 == k then (p.1, d) else p) := by
  rw [List.find?_map]
  have hpred : ((fun p : κ × ν => p.1 == k') ∘ (fun p => if p.1 == k then (p.1, d) else p))
      = fun p : κ × ν => p.1 == k' := by
    funext p
    by_cases h : (p.1 == k) = true <;> simp [Function.comp, h]
  rw [hpred]

/-- A key-updating map does not change the multiset of keys, hence not the
count of entries at any key. -/
theorem countP_key_map {κ ν : Type} [BEq κ] (l : List (κ × ν)) (k k' : κ) (d : ν) :
    (l.map (fun p => if p.1 == k then (p.1, d) else p)).countP (fun p => p.1 == k')
      = l.countP (fun p => p.1 == k') := by
  rw [List.countP_map]
  congr 1
  funext p
  by_cases h : (p.1 == k) = true <;> simp [Function.comp, h]

/-! ### Structural lemmas about the graph operations -/

theorem nodes_setEdge (g : Graph) (a b : Int) (d : EdgeData) :
    (setEdge g a b d).nodes = g.nodes := rfl

theorem edges_setAdoption (g : Graph) (u t : Int) :
    (setAdoption g u t).edges = g.edges := rfl

theorem edges_ensure_node (g : Graph) (u : Int) :
    (ensure_node g u).edges = g.edges := by
  unfold ensure_node
  split <;> rfl

theorem edges_add_user (g : Graph) (u : Int) (t : Option Int) :
    (add_user g u t).edges = g.edges := by
  simp only [add_user]
  split
  · exact edges_ensure_node g u
  · split
    · simp only [edges_setAdoption, edges_ensure_node]
    · split <;> simp only [edges_setAdoption, edges_ensure_node]

theorem hasNode_setEdge (g : Graph) (a b : Int) (d : EdgeData) (v : Int) :
    hasNode (setEdge g a b d) v = hasNode g v := rfl

theorem hasNode_setAdoption (g : Graph) (u t : Int) (v : Int) :
    hasNode (setAdoption g u t) v = hasNode g v := by
  unfold hasNode setAdoption
  rw [List.any_map]
  congr 1
  funext p
  by_cases h : (p.1 == u) = true <;> simp [Function.comp, h]

theorem hasNode_ensure_node_self (g : Graph) (u : Int) :
    hasNode (ensure_node g u) u = true := by
  unfold ensure_node
  split
  next h => exact h
  next h => simp [hasNode]

theorem hasNode_iff_find?_isSome (g : Graph) (u : Int) :
    hasNode g u = true ↔ (g.nodes.find? (fun p => p.1 == u)).isSome := by
  simp [hasNode, List.any_eq_true, List.find?_isSome]

theorem getAdoption_ensure_node (g : Graph) (u v : Int) :
    getAdoption (ensure_node g u) v = getAdoption g v := by
  unfold ensure_node
  split
  next h => rfl
  next h =>
    unfold getAdoption
    simp only [List.find?_append]
    cases hf : g.nodes.find? (fun p => p.1 == v) with
    | some p => simp [hf]
    | none =>
      simp only [hf, Option.none_or]
      by_cases hv : (u == v) = true <;> simp [List.find?, hv]

theorem getAdoption_setAdoption_self (g : Graph) (u t : Int)
    (h : hasNode g u = true) :
    getAdoption (setAdoption g u t) u = some t := by
  unfold getAdoption setAdoption
  rw [find?_key_map]
  cases hf : g.nodes.find? (fun p => p.1 == u) with
  | none =>
    rw [hasNode_iff_find?_isSome, hf] at h
    simp at h
  | some p =>
    have hkey : p.1 = u := by simpa using List.find?_some hf
    simp [hkey]

theorem getAdoption_setAdoption_ne (g : Graph) (u t : Int) (v : Int) (h : v ≠ u) :
    getAdoption (setAdoption g u t) v = getAdoption g v := by
  unfold getAdoption setAdoption
  rw [find?_key_map]
  cases hf : g.nodes.find? (fun p => p.1 == v) with
  | none => simp
  | some p =>
    have hkey : p.1 = v := by simpa using List.find?_some hf
    have hne : p.1 ≠ u := by rw [hkey]; exact h
    simp [hne]

theorem getEdge_setEdge_self (g : Graph) (a b : Int) (d ed : EdgeData)
    (he : getEdge g a b = some ed) :
    getEdge (setEdge g a b d) a b = some d := by
  unfold getEdge at he ⊢
  unfold setEdge
  rw [find?_key_map]
  cases hf : g.edges.find? (fun p => p.1 == (a, b)) with
  | none => rw [hf] at he; simp at he
  | some p =>
    have hkey : p.1 = (a, b) := by simpa using List.find?_some hf
    simp [hkey]

theorem getEdge_setEdge_ne (g : Graph) (a b : Int) (d : EdgeData) (p q : Int)
    (h : (p, q) ≠ (a, b)) :
    getEdge (setEdge g a b d) p q = getEdge g p q := by
  unfold getEdge setEdge
  rw [find?_key_map]
  cases hf : g.edges.find? (fun r => r.1 == (p, q)) with
  | none => simp
  | some r =>
    have hkey : r.1 = (p, q) := by simpa using List.find?_some hf
    have hne : r.1 ≠ (a, b) := by rw [hkey]; exact h
    simp [hne]

theorem getEdge_append_self (g : Graph) (a b : Int) (d : EdgeData)
    (h : getEdge g a b = none) :
    getEdge { g with edges := g.edges ++ [((a, b), d)] } a b = some d := by
  have h' : g.edges.find? (fun p => p.1 == (a, b)) = none := by
    unfold getEdge at h
    cases hf : g.edges.find? (fun p => p.1 == (a, b)) with
    | none => rfl
    | some p => rw [hf] at h; simp at h
  unfold getEdge
  simp [List.find?_append, h', List.find?]

theorem getEdge_append_ne (g : Graph) (a b : Int) (d : EdgeData) (p q : Int)
    (h : (p, q) ≠ (a, b)) :
    getEdge { g with edges := g.edges ++ [((a, b), d)] } p q = getEdge g p q := by
  unfold getEdge
  simp only [List.find?_append]
  cases hf : g.edges.find? (fun r => r.1 == (p, q)) with
  | some r => simp
  | none =>
    have hne : (((a, b) : Int × Int) == (p, q)) = false :=
      beq_eq_false_iff_ne.mpr (fun hc => h hc.symm)
    simp [List.find?, hne]

/-! ### The effect of one `add_relation` call -/

theorem merge_edge_eq (ed : EdgeData) (k : EdgeType) (t : Int) :
    merge_edge ed k t
      = ⟨if k ∈ ed.type_ then ed.type_ else ed.type_ ++ [k], min ed.creation_time t⟩ := by
  obtain ⟨ty, ct⟩ := ed
  unfold merge_edge
  by_cases h : t < ct <;> by_cases hk : k ∈ ty <;>
    simp [h, hk, EdgeData.mk.injEq] <;> omega

theorem add_relation_some (g : Graph) (a b : Int) (k : EdgeType) (t : Int) (ed : EdgeData)
    (ha : hasNode g a = true) (hb : hasNode g b = true) (he : getEdge g a b = some ed) :
    add_relation g a b k t = .ok (setEdge g a b (merge_edge ed k t)) := by
  unfold add_relation
  simp [ha, hb, he]

theorem add_relation_none (g : Graph) (a b : Int) (k : EdgeType) (t : Int)
    (ha : hasNode g a = true) (hb : hasNode g b = true) (he : getEdge g a b = none) :
    add_relation g a b k t = .ok { g with edges := g.edges ++ [((a, b), ⟨[k], t⟩)] } := by
  unfold add_relation
  simp [ha, hb, he]

theorem nodes_add_relation (g g' : Graph) (a b : Int) (k : EdgeType) (t : Int)
    (h : add_relation g a b k t = .ok g') : g'.nodes = g.nodes := by
  unfold add_relation at h
  split at h
  · split at h <;> (injection h with h; subst h; rfl)
  · exact absurd h (by simp)

theorem add_relation_ok_guard (g g' : Graph) (a b : Int) (k : EdgeType) (t : Int)
    (h : add_relation g a b k t = .ok g') :
    hasNode g a = true ∧ hasNode g b = true := by
  unfold add_relation at h
  by_cases hg : (hasNode g a && hasNode g b) = true
  · simpa using hg
  · rw [if_neg hg] at h
    exact absurd h (by simp)

theorem ensure_node_of_hasNode (g : Graph) (u : Int) (h : hasNode g u = true) :
    ensure_node g u = g := by
  unfold ensure_node
  rw [if_pos h]

theorem add_user_none (g : Graph) (u : Int) : add_user g u none = ensure_node g u := rfl

theorem add_user_some_none (g : Graph) (u t : Int)
    (h : getAdoption (ensure_node g u) u = none) :
    add_user g u (some t) = setAdoption (ensure_node g u) u t := by
  simp only [add_user]
  rw [h]

theorem add_user_some_some (g : Graph) (u t a : Int)
    (h : getAdoption (ensure_node g u) u = some a) :
    add_user g u (some t)
      = if t < a then setAdoption (ensure_node g u) u t else ensure_node g u := by
  simp only [add_user]
  rw [h]

theorem setAdoption_setAdoption (g : Graph) (u t t' : Int) :
    setAdoption (setAdoption g u t) u t' = setAdoption g u t' := by
  unfold setAdoption
  have hfun : ((fun p : Int × Option Int => if p.1 == u then (p.1, some t') else p)
        ∘ (fun p : Int × Option Int => if p.1 == u then (p.1, some t) else p))
      = fun p : Int × Option Int => if p.1 == u then (p.1, some t') else p := by
    funext p
    by_cases hp : (p.1 == u) = true <;> simp [Function.comp, hp]
  rw [List.map_map, hfun]

/-! ### Claim theorems -/

/-- C1: on the two-record input (user 100 at t=1000 with no interactions,
user 200 at t=2000 retweeting user 100, both tagged "X"), processing topic
"X" from the empty graph yields exactly the graph with nodes 100
(adoption_time 1000) and 200 (adoption_time 2000) and the single edge
200 → 100 of type {Retweet} with creation_time 2000, and no anomalies. -/
theorem processTopic_two_record_scenario :
    query_tweets Graph.empty [tweet1, tweet2] "X"
      = .ok (⟨[(100, some 1000), (200, some 2000)],
             [((200, 100), ⟨[.R], 2000⟩)]⟩, 0) := rfl

/-- C2: a top-level mention entry that occurs verbatim in the embedded
retweeted tweet's mention list is skipped by the mention loop: the graph is
returned unchanged from that entry (in particular no Mention edge is
created for it), with one anomaly logged exactly when its id is
unparseable. -/
theorem mention_dedup_propagated (g : Graph) (user_id create_at : Int)
    (original_retweet_mentions original_quote_mentions : List MentionEntry)
    (m : MentionEntry) (h : m ∈ original_retweet_mentions) :
    process_mention g user_id create_at
      original_retweet_mentions original_quote_mentions m
      = .ok (g, if m.id.isNone then 1 else 0) := by
  unfold process_mention
  cases hm : m.id with
  | none => simp
  | some i => simp [hm, Or.inl h]

/-- Witness for C2 at a concrete duplicated mention entry. -/
theorem mention_dedup_propagated_witness :
    process_mention Graph.empty 1 5 [shared_mention] [] shared_mention
      = .ok (Graph.empty, if shared_mention.id.isNone then 1 else 0) :=
  mention_dedup_propagated Graph.empty 1 5 [shared_mention] [] shared_mention
    (List.mem_singleton.mpr rfl)

/-- C7: `add_relation` fails with `PrecursorMissing` whenever an endpoint
is not a registered node, and succeeds whenever both endpoints are
registered (the kind is one of the four recognized kinds by the type
`EdgeType`). -/
theorem add_relation_precondition (g : Graph) (a b : Int) (k : EdgeType) (t : Int) :
    (¬(hasNode g a = true ∧ hasNode g b = true) →
      add_relation g a b k t = .error .PrecursorMissing)
    ∧ (hasNode g a = true → hasNode g b = true →
      ∃ g', add_relation g a b k t = .ok g') := by
  constructor
  · intro h
    unfold add_relation
    have hg : (hasNode g a && hasNode g b) = false := by
      cases ha : hasNode g a <;> cases hb : hasNode g b <;> simp_all
    simp [hg]
  · intro ha hb
    cases he : getEdge g a b with
    | some ed => exact ⟨_, add_relation_some g a b k t ed ha hb he⟩
    | none => exact ⟨_, add_relation_none g a b k t ha hb he⟩

/-- Witness for C7: a concrete failing call on the empty graph and a
concrete succeeding call on a graph with both endpoints registered. -/
theorem add_relation_precondition_witness :
    add_relation Graph.empty 1 2 .R 0 = .error .PrecursorMissing
    ∧ ∃ g', add_relation two_node_graph 1 2 .R 0 = .ok g' :=
  ⟨(add_relation_precondition Graph.empty 1 2 .R 0).1 (by decide),
   (add_relation_precondition two_node_graph 1 2 .R 0).2 (by decide) (by decide)⟩

/-- C8: a record with one malformed and one valid mention entry still
produces the Mention edge to the valid user and exactly one anomaly, the
record is processed to completion, and a later record of the same scan is
still processed. -/
theorem malformed_mention_tolerance :
    process_record Graph.empty mention_tweet
      = .ok (⟨[(10, some 5), (300, none)], [((10, 300), ⟨[.M], 5⟩)]⟩, 1)
    ∧ query_tweets Graph.empty [mention_tweet, later_tweet] "show"
      = .ok (⟨[(10, some 5), (300, none), (400, some 9)],
             [((10, 300), ⟨[.M], 5⟩)]⟩, 1) :=
  ⟨rfl, rfl⟩

/-- C9: `query_tweets` rejects the empty hashtag with `InvalidArgument`
whatever the store and current graph are (so before any store access and
with no graph mutation), and for any non-empty hashtag it proceeds to scan
the matching records of the store. -/
theorem processTopic_empty_topic (g : Graph) (store : List Tweet) (topic : String) :
    query_tweets g store "" = .error .InvalidArgument
    ∧ (topic ≠ "" →
      query_tweets g store topic
        = process_store g (store.filter (fun tweet => tweet.hashtags.contains topic))) := by
  constructor
  · rfl
  · intro h
    unfold query_tweets
    rw [if_neg h]

/-- Witness for C9 at a concrete store and topic. -/
theorem processTopic_empty_topic_witness :
    query_tweets Graph.empty [tweet1] "" = .error .InvalidArgument
    ∧ query_tweets Graph.empty [tweet1] "X"
      = process_store Graph.empty
          ([tweet1].filter (fun tweet => tweet.hashtags.contains "X")) :=
  ⟨(processTopic_empty_topic Graph.empty [tweet1] "X").1,
   (processTopic_empty_topic Graph.empty [tweet1] "X").2 (by decide)⟩

/-- C6 counterexample: on two registered nodes with no prior edge, adding
kinds R then M stores the type attribute `[R, M]`, while adding M then R
stores `[M, R]`; the stored attributes (Python strings `"RM"` vs `"MR"`)
are not equal, so the stored `type` attribute is not insertion-order
free. -/
theorem edge_type_order_counterexample :
    ((add_relation two_node_graph 1 2 .R 5).bind fun g => add_relation g 1 2 .M 7)
      = .ok ⟨[(1, none), (2, none)], [((1, 2), ⟨[.R, .M], 5⟩)]⟩
    ∧ ((add_relation two_node_graph 1 2 .M 7).bind fun g => add_relation g 1 2 .R 5)
      = .ok ⟨[(1, none), (2, none)], [((1, 2), ⟨[.M, .R], 5⟩)]⟩
    ∧ getEdge ⟨[(1, none), (2, none)], [((1, 2), ⟨[.R, .M], 5⟩)]⟩ 1 2
      ≠ getEdge ⟨[(1, none), (2, none)], [((1, 2), ⟨[.M, .R], 5⟩)]⟩ 1 2 :=
  ⟨rfl, rfl, by decide⟩

theorem mem_merge_edge (ed : EdgeData) (k : EdgeType) (t : Int) (x : EdgeType) :
    x ∈ (merge_edge ed k t).type_ ↔ x ∈ ed.type_ ∨ x = k := by
  rw [merge_edge_eq]
  by_cases hk : k ∈ ed.type_
  · simp only [if_pos hk]
    constructor
    · exact Or.inl
    · rintro (h | rfl)
      · exact h
      · exact hk
  · simp [if_neg hk]

theorem creation_time_merge_edge (ed : EdgeData) (k : EdgeType) (t : Int) :
    (merge_edge ed k t).creation_time = min ed.creation_time t := by
  rw [merge_edge_eq]

/-- The composite effect on the edge `a → b` of two successive successful
`add_relation` calls on the same ordered pair. -/
theorem add_relation_twice (g : Graph) (a b : Int) (k k' : EdgeType) (t t' : Int)
    (ha : hasNode g a = true) (hb : hasNode g b = true) :
    ∃ g', ((add_relation g a b k t).bind fun gm => add_relation gm a b k' t') = .ok g'
      ∧ getEdge g' a b
        = some (merge_edge (match getEdge g a b with
            | some ed => merge_edge ed k t
            | none => ⟨[k], t⟩) k' t') := by
  cases he : getEdge g a b with
  | some ed =>
    have h1 : add_relation g a b k t = .ok (setEdge g a b (merge_edge ed k t)) :=
      add_relation_some g a b k t ed ha hb he
    have he1 : getEdge (setEdge g a b (merge_edge ed k t)) a b = some (merge_edge ed k t) :=
      getEdge_setEdge_self g a b _ ed he
    have h2 : add_relation (setEdge g a b (merge_edge ed k t)) a b k' t'
        = .ok (setEdge (setEdge g a b (merge_edge ed k t)) a b
            (merge_edge (merge_edge ed k t) k' t')) :=
      add_relation_some _ a b k' t' _ ha hb he1
    refine ⟨setEdge (setEdge g a b (merge_edge ed k t)) a b
      (merge_edge (merge_edge ed k t) k' t'), ?_, ?_⟩
    · rw [h1]
      exact h2
    · exact getEdge_setEdge_self _ a b _ _ he1
  | none =>
    have h1 : add_relation g a b k t
        = .ok { g with edges := g.edges ++ [((a, b), ⟨[k], t⟩)] } :=
      add_relation_none g a b k t ha hb he
    have he1 : getEdge { g with edges := g.edges ++ [((a, b), ⟨[k], t⟩)] } a b
        = some ⟨[k], t⟩ :=
      getEdge_append_self g a b _ he
    have h2 : add_relation { g with edges := g.edges ++ [((a, b), ⟨[k], t⟩)] } a b k' t'
        = .ok (setEdge { g with edges := g.edges ++ [((a, b), ⟨[k], t⟩)] } a b
            (merge_edge ⟨[k], t⟩ k' t')) :=
      add_relation_some _ a b k' t' _ ha hb he1
    refine ⟨setEdge { g with edges := g.edges ++ [((a, b), ⟨[k], t⟩)] } a b
      (merge_edge ⟨[k], t⟩ k' t'), ?_, ?_⟩
    · rw [h1]
      exact h2
    · exact getEdge_setEdge_self _ a b _ _ he1

/-- C6 amended: for registered endpoints and distinct kinds, the two call
orders store the same set of kinds on the edge `a → b` (the same
membership) and the same `creation_time`; only the stored sequence order
may differ. -/
theorem edge_type_set_order_free (g : Graph) (a b : Int) (k1 k2 : EdgeType) (t1 t2 : Int)
    (ha : hasNode g a = true) (hb : hasNode g b = true) (hk : k1 ≠ k2) :
    ∃ g1 g2,
      ((add_relation g a b k1 t1).bind fun gm => add_relation gm a b k2 t2) = .ok g1
      ∧ ((add_relation g a b k2 t2).bind fun gm => add_relation gm a b k1 t1) = .ok g2
      ∧ ∃ e1 e2, getEdge g1 a b = some e1 ∧ getEdge g2 a b = some e2
        ∧ e1.creation_time = e2.creation_time
        ∧ ∀ k, k ∈ e1.type_ ↔ k ∈ e2.type_ := by
  obtain ⟨g1, hrun1, hedge1⟩ := add_relation_twice g a b k1 k2 t1 t2 ha hb
  obtain ⟨g2, hrun2, hedge2⟩ := add_relation_twice g a b k2 k1 t2 t1 ha hb
  refine ⟨g1, g2, hrun1, hrun2, _, _, hedge1, hedge2, ?_, ?_⟩
  · cases he : getEdge g a b with
    | some ed =>
      simp only [creation_time_merge_edge]
      omega
    | none =>
      simp only [creation_time_merge_edge]
      omega
  · intro k
    cases he : getEdge g a b with
    | some ed =>
      simp only [mem_merge_edge]
      tauto
    | none =>
      simp only [mem_merge_edge, List.mem_singleton]
      tauto

/-- Witness for C6 amended at concrete nodes, kinds and timestamps. -/
theorem edge_type_set_order_free_witness :
    ∃ g1 g2,
      ((add_relation two_node_graph 1 2 .R 5).bind fun gm => add_relation gm 1 2 .M 7) = .ok g1
      ∧ ((add_relation two_node_graph 1 2 .M 7).bind fun gm => add_relation gm 1 2 .R 5) = .ok g2
      ∧ ∃ e1 e2, getEdge g1 1 2 = some e1 ∧ getEdge g2 1 2 = some e2
        ∧ e1.creation_time = e2.creation_time
        ∧ ∀ k, k ∈ e1.type_ ↔ k ∈ e2.type_ :=
  edge_type_set_order_free two_node_graph 1 2 .R .M 5 7 (by decide) (by decide) (by decide)

/-- C4: two `add_user` calls with timestamps, starting from any state in
which the user has no `adoption_time`, leave `adoption_time = min t1 t2`,
and the resulting graph does not depend on the order of the two calls. -/
theorem add_user_earliest_wins (g : Graph) (u t1 t2 : Int)
    (h : getAdoption g u = none) :
    getAdoption (add_user (add_user g u (some t1)) u (some t2)) u = some (min t1 t2)
    ∧ add_user (add_user g u (some t1)) u (some t2)
      = add_user (add_user g u (some t2)) u (some t1) := by
  have hnode : hasNode (ensure_node g u) u = true := hasNode_ensure_node_self g u
  have he0 : getAdoption (ensure_node g u) u = none := by
    rw [getAdoption_ensure_node]
    exact h
  have s1 : add_user g u (some t1) = setAdoption (ensure_node g u) u t1 :=
    add_user_some_none g u t1 he0
  have s1' : add_user g u (some t2) = setAdoption (ensure_node g u) u t2 :=
    add_user_some_none g u t2 he0
  have hn1 : hasNode (setAdoption (ensure_node g u) u t1) u = true := by
    rw [hasNode_setAdoption]
    exact hnode
  have hn2 : hasNode (setAdoption (ensure_node g u) u t2) u = true := by
    rw [hasNode_setAdoption]
    exact hnode
  have hens1 : ensure_node (setAdoption (ensure_node g u) u t1) u
      = setAdoption (ensure_node g u) u t1 := ensure_node_of_hasNode _ u hn1
  have hens2 : ensure_node (setAdoption (ensure_node g u) u t2) u
      = setAdoption (ensure_node g u) u t2 := ensure_node_of_hasNode _ u hn2
  have ga1 : getAdoption (setAdoption (ensure_node g u) u t1) u = some t1 :=
    getAdoption_setAdoption_self _ u t1 hnode
  have ga2 : getAdoption (setAdoption (ensure_node g u) u t2) u = some t2 :=
    getAdoption_setAdoption_self _ u t2 hnode
  have s2 : add_user (setAdoption (ensure_node g u) u t1) u (some t2)
      = if t2 < t1 then setAdoption (ensure_node g u) u t2
        else setAdoption (ensure_node g u) u t1 := by
    rw [add_user_some_some _ u t2 t1 (by rw [hens1]; exact ga1), hens1,
      setAdoption_setAdoption]
  have s2' : add_user (setAdoption (ensure_node g u) u t2) u (some t1)
      = if t1 < t2 then setAdoption (ensure_node g u) u t1
        else setAdoption (ensure_node g u) u t2 := by
    rw [add_user_some_some _ u t1 t2 (by rw [hens2]; exact ga2), hens2,
      setAdoption_setAdoption]
  constructor
  · rw [s1, s2]
    by_cases hlt : t2 < t1
    · rw [if_pos hlt, getAdoption_setAdoption_self _ u t2 hnode]
      congr 1
      omega
    · rw [if_neg hlt, getAdoption_setAdoption_self _ u t1 hnode]
      congr 1
      omega
  · rw [s1, s2, s1', s2']
    rcases lt_trichotomy t1 t2 with hl | heq | hl
    · rw [if_neg (by omega), if_pos hl]
    · rw [heq]
    · rw [if_pos hl, if_neg (by omega)]

/-- Witness for C4 at a concrete user and timestamps. -/
theorem add_user_earliest_wins_witness :
    getAdoption (add_user (add_user Graph.empty 7 (some 5)) 7 (some 3)) 7 = some (min 5 3)
    ∧ add_user (add_user Graph.empty 7 (some 5)) 7 (some 3)
      = add_user (add_user Graph.empty 7 (some 3)) 7 (some 5) :=
  add_user_earliest_wins Graph.empty 7 5 3 (by decide)

/-- C3 counterexample: from a state in which nodes 1 and 2 are registered
but an edge 1 → 2 of kind Q with creation_time 0 already exists, calling
AddRelation(1,2,R,5) and then AddRelation(1,2,M,7) leaves the edge with
stored type [Q, R, M] and creation_time 0: its type set is not
{Retweet, Mention} (it still contains Q) and its creation_time is not
min(5,7). -/
theorem edge_accumulation_counterexample :
    hasNode q_edge_graph 1 = true ∧ hasNode q_edge_graph 2 = true
    ∧ ((add_relation q_edge_graph 1 2 .R 5).bind fun g => add_relation g 1 2 .M 7)
      = .ok ⟨[(1, none), (2, none)], [((1, 2), ⟨[.Q, .R, .M], 0⟩)]⟩
    ∧ getEdge ⟨[(1, none), (2, none)], [((1, 2), ⟨[.Q, .R, .M], 0⟩)]⟩ 1 2
      = some ⟨[.Q, .R, .M], 0⟩
    ∧ (0 : Int) ≠ min 5 7
    ∧ EdgeType.Q ∈ [EdgeType.Q, EdgeType.R, EdgeType.M]
    ∧ EdgeType.Q ∉ [EdgeType.R, EdgeType.M] :=
  ⟨rfl, rfl, rfl, rfl, by decide, by decide, by decide⟩

theorem find?_eq_none_of_getEdge_none (g : Graph) (a b : Int)
    (h : getEdge g a b = none) :
    g.edges.find? (fun p => p.1 == (a, b)) = none := by
  unfold getEdge at h
  cases hf : g.edges.find? (fun p => p.1 == (a, b)) with
  | none => rfl
  | some p => rw [hf] at h; simp at h

/-- C3 amended: for registered endpoints with no pre-existing edge
`a → b`, AddRelation(a,b,R,t1) followed by AddRelation(a,b,M,t2) leaves
exactly one edge `a → b`, whose type set is {Retweet, Mention} and whose
creation_time is min(t1,t2). -/
theorem edge_accumulation_fresh (g : Graph) (a b t1 t2 : Int)
    (ha : hasNode g a = true) (hb : hasNode g b = true) (he : getEdge g a b = none) :
    ∃ g', ((add_relation g a b .R t1).bind fun gm => add_relation gm a b .M t2) = .ok g'
      ∧ getEdge g' a b = some ⟨[.R, .M], min t1 t2⟩
      ∧ g'.edges.countP (fun p => p.1 == (a, b)) = 1 := by
  have h1 := add_relation_none g a b .R t1 ha hb he
  have he1 : getEdge { g with edges := g.edges ++ [((a, b), ⟨[.R], t1⟩)] } a b
      = some ⟨[.R], t1⟩ := getEdge_append_self g a b _ he
  have h2 := add_relation_some { g with edges := g.edges ++ [((a, b), ⟨[.R], t1⟩)] }
    a b .M t2 ⟨[.R], t1⟩ ha hb he1
  refine ⟨setEdge { g with edges := g.edges ++ [((a, b), ⟨[.R], t1⟩)] } a b
    (merge_edge ⟨[.R], t1⟩ .M t2), ?_, ?_, ?_⟩
  · rw [h1]
    exact h2
  · rw [getEdge_setEdge_self { g with edges := g.edges ++ [((a, b), ⟨[.R], t1⟩)] }
      a b _ ⟨[.R], t1⟩ he1, merge_edge_eq]
    simp
  · show (setEdge { g with edges := g.edges ++ [((a, b), ⟨[.R], t1⟩)] } a b
      (merge_edge ⟨[.R], t1⟩ .M t2)).edges.countP (fun p => p.1 == (a, b)) = 1
    unfold setEdge
    rw [countP_key_map, List.countP_append]
    have hz : g.edges.countP (fun p => p.1 == (a, b)) = 0 := by
      rw [List.countP_eq_zero]
      intro x hx
      exact List.find?_eq_none.mp (find?_eq_none_of_getEdge_none g a b he) x hx
    rw [hz]
    simp [List.countP_cons]

/-- Witness for C3 amended at concrete nodes and timestamps. -/
theorem edge_accumulation_fresh_witness :
    ∃ g', ((add_relation two_node_graph 1 2 .R 5).bind
        fun gm => add_relation gm 1 2 .M 7) = .ok g'
      ∧ getEdge g' 1 2 = some ⟨[.R, .M], min 5 7⟩
      ∧ g'.edges.countP (fun p => p.1 == ((1 : Int), (2 : Int))) = 1 :=
  edge_accumulation_fresh two_node_graph 1 2 5 7 (by decide) (by decide) (by decide)

/-- C10: a successful `add_relation` call modifies at most the single edge
`a → b`: the node list (so every node attribute) is exactly unchanged, and
so is the edge attribute of every ordered pair other than `(a, b)`. -/
theorem add_relation_frame (g g' : Graph) (a b : Int) (k : EdgeType) (t : Int)
    (h : add_relation g a b k t = .ok g') :
    g'.nodes = g.nodes
    ∧ ∀ p q : Int, (p, q) ≠ (a, b) → getEdge g' p q = getEdge g p q := by
  refine ⟨nodes_add_relation g g' a b k t h, ?_⟩
  intro p q hpq
  obtain ⟨ha, hb⟩ := add_relation_ok_guard g g' a b k t h
  cases he : getEdge g a b with
  | some ed =>
    rw [add_relation_some g a b k t ed ha hb he] at h
    injection h with h
    subst h
    exact getEdge_setEdge_ne g a b _ p q hpq
  | none =>
    rw [add_relation_none g a b k t ha hb he] at h
    injection h with h
    subst h
    exact getEdge_append_ne g a b _ p q hpq

/-- Witness for C10 at a concrete successful call. -/
theorem add_relation_frame_witness :
    (⟨[(1, none), (2, none)], [((1, 2), ⟨[.R], 5⟩)]⟩ : Graph).nodes = two_node_graph.nodes
    ∧ ∀ p q : Int, (p, q) ≠ (1, 2) →
      getEdge ⟨[(1, none), (2, none)], [((1, 2), ⟨[.R], 5⟩)]⟩ p q
        = getEdge two_node_graph p q :=
  add_relation_frame two_node_graph ⟨[(1, none), (2, none)], [((1, 2), ⟨[.R], 5⟩)]⟩
    1 2 .R 5 rfl

theorem getEdge_add_user (g : Graph) (u : Int) (t : Option Int) (p q : Int) :
    getEdge (add_user g u t) p q = getEdge g p q := by
  unfold getEdge
  rw [edges_add_user]

theorem getAdoption_add_relation (g g' : Graph) (a b : Int) (k : EdgeType) (t : Int)
    (h : add_relation g a b k t = .ok g') (v : Int) :
    getAdoption g' v = getAdoption g v := by
  unfold getAdoption
  rw [nodes_add_relation g g' a b k t h]

theorem adoption_mono_add_user (g : Graph) (u : Int) (topt : Option Int) (v tv : Int)
    (hv : getAdoption g v = some tv) :
    ∃ t', getAdoption (add_user g u topt) v = some t' ∧ t' ≤ tv := by
  have hev : getAdoption (ensure_node g u) v = getAdoption g v :=
    getAdoption_ensure_node g u v
  cases topt with
  | none =>
    refine ⟨tv, ?_, le_refl tv⟩
    rw [add_user_none, hev]
    exact hv
  | some s =>
    cases hg : getAdoption (ensure_node g u) u with
    | none =>
      have hvu : v ≠ u := by
        intro hco
        subst hco
        rw [hev, hv] at hg
        exact absurd hg (by simp)
      rw [add_user_some_none g u s hg]
      refine ⟨tv, ?_, le_refl tv⟩
      rw [getAdoption_setAdoption_ne _ u s v hvu, hev]
      exact hv
    | some a =>
      rw [add_user_some_some g u s a hg]
      by_cases hlt : s < a
      · rw [if_pos hlt]
        by_cases hvu : v = u
        · subst hvu
          have h1 : getAdoption g v = some a := by
            rw [← hev]
            exact hg
          rw [h1] at hv
          have hat : a = tv := by injection hv
          refine ⟨s, ?_, by omega⟩
          exact getAdoption_setAdoption_self _ v s (hasNode_ensure_node_self g v)
        · refine ⟨tv, ?_, le_refl tv⟩
          rw [getAdoption_setAdoption_ne _ u s v hvu, hev]
          exact hv
      · rw [if_neg hlt]
        refine ⟨tv, ?_, le_refl tv⟩
        rw [hev]
        exact hv

theorem getEdge_entry (g : Graph) (a b : Int) (ed : EdgeData)
    (h : getEdge g a b = some ed) : ∃ p ∈ g.edges, p.1 = (a, b) ∧ p.2 = ed := by
  unfold getEdge at h
  cases hf : g.edges.find? (fun p => p.1 == (a, b)) with
  | none => rw [hf] at h; simp at h
  | some p =>
    rw [hf] at h
    refine ⟨p, List.mem_of_find?_eq_some hf, ?_, ?_⟩
    · simpa using List.find?_some hf
    · simpa using h

theorem merge_edge_type_ne_nil (ed : EdgeData) (k : EdgeType) (t : Int)
    (h : ed.type_ ≠ []) : (merge_edge ed k t).type_ ≠ [] := by
  rw [merge_edge_eq]
  by_cases hk : k ∈ ed.type_
  · simpa [if_pos hk] using h
  · simp [if_neg hk]

theorem keys_setEdge (g : Graph) (a b : Int) (d : EdgeData) :
    (setEdge g a b d).edges.map (fun p => p.1) = g.edges.map (fun p => p.1) := by
  unfold setEdge
  have hfun : ((fun p : (Int × Int) × EdgeData => p.1)
        ∘ (fun p : (Int × Int) × EdgeData => if p.1 == (a, b) then (p.1, d) else p))
      = fun p : (Int × Int) × EdgeData => p.1 := by
    funext p
    by_cases hp : (p.1 == (a, b)) = true <;> simp [Function.comp, hp]
  rw [List.map_map, hfun]

theorem edge_mono_add_relation (g g' : Graph) (a b : Int) (k : EdgeType) (t : Int)
    (h : add_relation g a b k t = .ok g') (p q : Int) (e : EdgeData)
    (he : getEdge g p q = some e) :
    ∃ e', getEdge g' p q = some e' ∧ e'.creation_time ≤ e.creation_time
      ∧ ∀ x ∈ e.type_, x ∈ e'.type_ := by
  obtain ⟨ha, hb⟩ := add_relation_ok_guard g g' a b k t h
  cases hab : getEdge g a b with
  | some ed =>
    rw [add_relation_some g a b k t ed ha hb hab] at h
    injection h with h
    subst h
    by_cases hpq : (p, q) = (a, b)
    · have hp : p = a := congrArg Prod.fst hpq
      have hq : q = b := congrArg Prod.snd hpq
      rw [hp, hq] at he ⊢
      rw [hab] at he
      have hed : ed = e := by injection he
      rw [← hed]
      refine ⟨merge_edge ed k t, getEdge_setEdge_self g a b _ ed hab, ?_, ?_⟩
      · rw [creation_time_merge_edge]
        omega
      · intro x hx
        exact (mem_merge_edge ed k t x).mpr (Or.inl hx)
    · refine ⟨e, ?_, le_refl _, fun x hx => hx⟩
      rw [getEdge_setEdge_ne g a b _ p q hpq]
      exact he
  | none =>
    rw [add_relation_none g a b k t ha hb hab] at h
    injection h with h
    subst h
    by_cases hpq : (p, q) = (a, b)
    · have hp : p = a := congrArg Prod.fst hpq
      have hq : q = b := congrArg Prod.snd hpq
      rw [hp, hq, hab] at he
      exact absurd he (by simp)
    · refine ⟨e, ?_, le_refl _, fun x hx => hx⟩
      rw [getEdge_append_ne g a b _ p q hpq]
      exact he

theorem inv_add_relation (g g' : Graph) (a b : Int) (k : EdgeType) (t : Int)
    (h : add_relation g a b k t = .ok g') (hInv : Inv g) : Inv g' := by
  obtain ⟨ha, hb⟩ := add_relation_ok_guard g g' a b k t h
  cases hab : getEdge g a b with
  | some ed =>
    rw [add_relation_some g a b k t ed ha hb hab] at h
    injection h with h
    subst h
    obtain ⟨p0, hp0mem, hp0key, hp0val⟩ := getEdge_entry g a b ed hab
    constructor
    · rw [keys_setEdge]
      exact hInv.1
    · intro p hp
      unfold setEdge at hp
      simp only [List.mem_map] at hp
      obtain ⟨q, hq, rfl⟩ := hp
      by_cases hqk : (q.1 == (a, b)) = true
      · rw [if_pos hqk]
        exact merge_edge_type_ne_nil ed k t (hp0val ▸ hInv.2 p0 hp0mem)
      · rw [if_neg hqk]
        exact hInv.2 q hq
  | none =>
    rw [add_relation_none g a b k t ha hb hab] at h
    injection h with h
    subst h
    constructor
    · simp only [List.map_append, List.map_cons, List.map_nil]
      rw [List.nodup_append]
      refine ⟨hInv.1, List.nodup_singleton _, ?_⟩
      intro x hx hx2
      have hxab : x = (a, b) := by simpa using hx2
      subst hxab
      simp only [List.mem_map] at hx
      obtain ⟨p, hpmem, hpkey⟩ := hx
      have hfalse := List.find?_eq_none.mp
        (find?_eq_none_of_getEdge_none g a b hab) p hpmem
      rw [hpkey] at hfalse
      exact hfalse (by simp)
    · intro p hp
      rw [List.mem_append] at hp
      cases hp with
      | inl hp => exact hInv.2 p hp
      | inr hp =>
        have hpv : p = ((a, b), ⟨[k], t⟩) := by simpa using hp
        subst hpv
        simp

/-- C5: the state predicate `Inv` (at most one edge per ordered pair,
no empty type set) is preserved by every `add_user` call and every
successful `add_relation` call, and across any such call every set
`adoption_time` can only decrease, every edge's type set can only gain
kinds, and every edge's `creation_time` can only decrease. -/
theorem graph_invariants_preserved (g g' : Graph) (hInv : Inv g) (hs : Step g g') :
    Inv g'
    ∧ (∀ u t, getAdoption g u = some t →
        ∃ t', getAdoption g' u = some t' ∧ t' ≤ t)
    ∧ (∀ a b e, getEdge g a b = some e →
        ∃ e', getEdge g' a b = some e'
          ∧ e'.creation_time ≤ e.creation_time
          ∧ ∀ x ∈ e.type_, x ∈ e'.type_) := by
  rcases hs with ⟨u, topt, rfl⟩ | ⟨a, b, k, t, h⟩
  · refine ⟨?_, ?_, ?_⟩
    · constructor
      · rw [show (add_user g u topt).edges = g.edges from edges_add_user g u topt]
        exact hInv.1
      · intro p hp
        rw [edges_add_user] at hp
        exact hInv.2 p hp
    · intro v tv hv
      exact adoption_mono_add_user g u topt v tv hv
    · intro a b e he
      refine ⟨e, ?_, le_refl _, fun x hx => hx⟩
      rw [getEdge_add_user]
      exact he
  · refine ⟨inv_add_relation g g' a b k t h hInv, ?_, ?_⟩
    · intro v tv hv
      refine ⟨tv, ?_, le_refl _⟩
      rw [getAdoption_add_relation g g' a b k t h]
      exact hv
    · intro p q e he
      exact edge_mono_add_relation g g' a b k t h p q e he

/-- Witness for C5: the invariant after one concrete `add_user` step from
the empty graph, obtained from the preservation theorem. -/
theorem graph_invariants_preserved_witness :
    Inv (add_user Graph.empty 1 (some 5)) :=
  (graph_invariants_preserved Graph.empty (add_user Graph.empty 1 (some 5))
    ⟨by simp [Graph.empty], by simp [Graph.empty]⟩
    (Or.inl ⟨1, some 5, rfl⟩)).1

end RetweetNetwork
